import Mathlib

/-!
Shallow embedding of the ranked-list reconciliation engine of the
Fantasy-Football-Draft-Tracker repository (`src/App.tsx`).

The repository contains two variants of the application in `src/App.tsx`.
The second ("partitioned") variant keeps undrafted players densely ranked
and moves drafted players to a trailing partition; the first ("full-roster")
variant ranks the whole roster.  Definitions without a suffix embed the
partitioned variant (the one with the catalog-refresh merge); definitions
with an `A` suffix embed the full-roster variant.

JavaScript `Array.prototype.sort` with a comparator is modelled as a stable
insertion sort (`sortBy`) driven by `comparator(a, b) <= 0`; for a consistent
comparator this is exactly the (unique) stable sort mandated by ECMAScript.
`parseInt` on the numeric-string wire ids is abstracted by taking ids as
integers.  A JS `Map` built from key/value pairs (later entries overwrite
earlier ones) is modelled by `mapLookup`, and a JS `Set` by list membership.
-/

/-- A player record, `Player` from `src/types.ts` as used by `src/App.tsx`:
`id` (number), `rank` (number; always assigned as `index + 1`), `name`,
`team` (nullable), `position`, `isDrafted`, `tags`. -/
structure Player where
  id : Int
  rank : Nat
  name : String
  team : Option String
  position : String
  isDrafted : Bool
  tags : List String
deriving DecidableEq, Repr, Inhabited

/-- The `search_rank` field of a raw Sleeper record: a number, an explicit
`null`, or absent (`undefined`). -/
inductive SRank where
  | missing : SRank
  | snull : SRank
  | num : Int → SRank
deriving DecidableEq, Repr

/-- A raw catalog record as consumed by `normalizeSleeperData`
(`player_id` is a numeric string on the wire; `parseInt` is abstracted by
storing the parsed integer). -/
structure RawRecord where
  player_id : Int
  first_name : String
  last_name : String
  team : Option String
  position : Option String
  status : String
  search_rank : SRank
  years_exp : Int
deriving DecidableEq, Repr

/-- Insert `x` into `l` in front of the first element `y` with `le x y`. -/
def insertBy (le : α → α → Bool) (x : α) : List α → List α
  | [] => [x]
  | y :: ys => if le x y then x :: y :: ys else y :: insertBy le x ys

/-- Stable insertion sort by a boolean "may come before" relation; models
JS `Array.prototype.sort(comparator)` via `le a b := comparator a b ≤ 0`. -/
def sortBy (le : α → α → Bool) : List α → List α
  | [] => []
  | x :: xs => insertBy le x (sortBy le xs)

/-- Models `list.map((p, index) => ({ ...p, rank: index + 1 }))`, with the
first index mapped to rank `n`. -/
def reRank : Nat → List Player → List Player
  | _, [] => []
  | n, p :: ps => { p with rank := n } :: reRank (n + 1) ps

/-- Insert `x` immediately before the first element satisfying `q`
(at the end if none does); models `l.splice(l.findIndex(q), 0, x)` when a
matching element exists. -/
def insertBeforeFirst (q : α → Bool) (x : α) : List α → List α
  | [] => [x]
  | y :: ys => if q y then x :: y :: ys else y :: insertBeforeFirst q x ys

/-- Lookup in a JS `Map` built from the entries of `entries` in order
(later entries with the same key overwrite earlier ones). -/
def mapLookup (entries : List Player) (i : Int) : Option Player :=
  entries.reverse.find? (fun p => p.id == i)

/-- The fixed allow-list of fantasy positions in `normalizeSleeperData`. -/
def fantasyPositions : List String := ["QB", "RB", "WR", "TE", "K", "DST"]

/-- The filter predicate of `normalizeSleeperData`:
`p.status === 'Active' && p.position && fantasyPositions.has(p.position)`. -/
def rawKeep (p : RawRecord) : Bool :=
  p.status == "Active" &&
    (match p.position with
     | some pos => fantasyPositions.contains pos
     | none => false)

/-- The sort comparator of `normalizeSleeperData`:
`if (a.search_rank === null) return 1; if (b.search_rank === null) return -1;
return a.search_rank - b.search_rank;` — a missing (`undefined`) rank falls
through to the subtraction, yielding `NaN`, which ECMAScript's `SortCompare`
turns into `+0`. -/
def searchRankCompare (a b : SRank) : Int :=
  match a, b with
  | .snull, _ => 1
  | _, .snull => -1
  | .missing, _ => 0
  | _, .missing => 0
  | .num x, .num y => x - y

/-- "May come before" relation induced by `searchRankCompare`. -/
def rawLe (a b : RawRecord) : Bool :=
  searchRankCompare a.search_rank b.search_rank ≤ 0

/-- The final `map((p, index) => ...)` of `normalizeSleeperData`, starting at
rank `n`: builds `Player` records with `rank = index + 1`, `isDrafted = false`
and a `Rookie` tag for `years_exp === 0`. -/
def toPlayers : Nat → List RawRecord → List Player
  | _, [] => []
  | n, p :: ps =>
    { id := p.player_id
      rank := n
      name := p.first_name ++ " " ++ p.last_name
      team := p.team
      position := p.position.getD ""
      isDrafted := false
      tags := if p.years_exp == 0 then ["Rookie"] else [] } :: toPlayers (n + 1) ps

/-- Embedding of `normalizeSleeperData` (both variants, identical code): filter to active
fantasy players, sort by `search_rank`, assign ranks `1..N`. -/
def normalizeSleeperData (data : List RawRecord) : List Player :=
  toPlayers 1 (sortBy rawLe (data.filter rawKeep))

/-- Rank comparator `(a, b) => a.rank - b.rank` as a "may come before"
boolean relation. -/
def rankLe (a b : Player) : Bool := a.rank ≤ b.rank

/-- Embedding of `handleToggleDraftStatus` of the partitioned variant: flip `isDrafted`
of the matching player, then re-rank the undrafted partition densely
(sorted by previous rank) and append the drafted players. -/
def handleToggleDraftStatus (currentPlayers : List Player) (playerId : Int) : List Player :=
  let updatedPlayers := currentPlayers.map (fun p =>
    if p.id == playerId then { p with isDrafted := !p.isDrafted } else p)
  let undrafted := sortBy rankLe (updatedPlayers.filter (fun p => !p.isDrafted))
  let drafted := updatedPlayers.filter (fun p => p.isDrafted)
  reRank 1 undrafted ++ drafted

/-- Embedding of `handleTogglePlayerTag` (both variants, identical code): toggle `tag` in
the tag list of the matching player. -/
def handleTogglePlayerTag (current : List Player) (playerId : Int) (tag : String) : List Player :=
  current.map (fun p =>
    if p.id == playerId then
      { p with tags :=
          if p.tags.contains tag then p.tags.filter (fun t => t != tag)
          else p.tags ++ [tag] }
    else p)

/-- The `draft_pick` branch of `ws.onmessage` (both variants, identical
code): mark the player with the picked id as drafted. -/
def applyExternalPick (currentPlayers : List Player) (pickedPlayerId : Int) : List Player :=
  currentPlayers.map (fun p =>
    if p.id == pickedPlayerId then { p with isDrafted := true } else p)

/-- The pick-snapshot merge of `fetchDraftPicks` (and of `handleStartSync` /
`handleForceRefresh` in the full-roster variant):
`isDrafted: player.isDrafted || draftedPlayerIds.has(player.id)`. -/
def applyPicksMerge (currentPlayers : List Player) (draftedPlayerIds : List Int) : List Player :=
  currentPlayers.map (fun p =>
    { p with isDrafted := p.isDrafted || draftedPlayerIds.contains p.id })

/-- The roster part of `handleRemoveSync` (both variants): reset every
`isDrafted` flag to `false`. -/
def handleRemoveSync (currentPlayers : List Player) : List Player :=
  currentPlayers.map (fun p => { p with isDrafted := false })

/-- The per-player update of the catalog-refresh merge: if the new catalog
still carries this id, overwrite `name`/`team`/`position`, else keep the
record (such records are dropped by the subsequent `has` filter). -/
def mergeUpdate (newPlayers : List Player) (p : Player) : Player :=
  match mapLookup newPlayers p.id with
  | some newPlayerData =>
    { p with name := newPlayerData.name, team := newPlayerData.team,
             position := newPlayerData.position }
  | none => p

/-- Models `newPlayersMap.has(p.id)` of the merge. -/
def hasNew (newPlayers : List Player) (p : Player) : Bool :=
  (mapLookup newPlayers p.id).isSome

/-- A player whose id does not occur in `roster` (the
`!currentPlayerIds.has(p.id)` test of the merge). -/
def notInRoster (roster : List Player) (p : Player) : Bool :=
  !(roster.any (fun q => q.id == p.id))

/-- The `combinedList` of the catalog-refresh merge: surviving current
players (metadata refreshed) followed by the brand-new catalog players. -/
def mergeCombined (currentPlayers newPlayers : List Player) : List Player :=
  (currentPlayers.map (mergeUpdate newPlayers)).filter (hasNew newPlayers) ++
    newPlayers.filter (notInRoster currentPlayers)

/-- The catalog-refresh merge inside `fetchPlayers` of the partitioned
variant: on an empty roster take the new catalog as-is; otherwise overwrite
`name`/`team`/`position` of surviving players, drop players absent from the
new catalog, append brand-new catalog players, then re-rank the undrafted
partition (sorted by rank) and append the drafted partition. -/
def mergeCatalogRefresh (currentPlayers newPlayers : List Player) : List Player :=
  if currentPlayers.length = 0 then newPlayers
  else
    let combinedList := mergeCombined currentPlayers newPlayers
    let undrafted := sortBy rankLe (combinedList.filter (fun p => !p.isDrafted))
    let drafted := combinedList.filter (fun p => p.isDrafted)
    reRank 1 undrafted ++ drafted

/-- Embedding of `handleDrop` of the partitioned variant: no-op unless both endpoints
exist and are undrafted and the ids differ; otherwise remove the dragged
player from the undrafted partition, re-insert it at the target's position
(the first position whose player has the target id, found after the
removal), re-rank the undrafted partition `1..N` and append the drafted
players.  (The inner `none` fallback is unreachable: the guards ensure an
undrafted player with the dragged id exists.) -/
def handleDrop (currentPlayers : List Player) (draggedPlayerId dragOverPlayerId : Int) :
    List Player :=
  if draggedPlayerId = dragOverPlayerId then currentPlayers
  else
    match currentPlayers.find? (fun p => p.id == draggedPlayerId),
          currentPlayers.find? (fun p => p.id == dragOverPlayerId) with
    | some draggedPlayer, some targetPlayer =>
      if draggedPlayer.isDrafted || targetPlayer.isDrafted then currentPlayers
      else
        let undrafted := currentPlayers.filter (fun p => !p.isDrafted)
        match undrafted.find? (fun p => p.id == draggedPlayerId) with
        | some removed =>
          let rest := undrafted.eraseP (fun p => p.id == draggedPlayerId)
          let inserted := insertBeforeFirst (fun p => p.id == dragOverPlayerId) removed rest
          reRank 1 inserted ++ currentPlayers.filter (fun p => p.isDrafted)
        | none => currentPlayers
    | _, _ => currentPlayers

/-- Embedding of `handleToggleDraftStatus` of the full-roster variant: flip the flag,
leave all ranks in place. -/
def handleToggleDraftStatusA (currentPlayers : List Player) (playerId : Int) : List Player :=
  currentPlayers.map (fun p =>
    if p.id == playerId then { p with isDrafted := !p.isDrafted } else p)

/-- Embedding of `handleDrop` of the full-roster variant: same guards, but the removal
and re-insertion happen on the whole roster and the whole roster is
re-ranked `1..N`. -/
def handleDropA (currentPlayers : List Player) (draggedPlayerId dragOverPlayerId : Int) :
    List Player :=
  if draggedPlayerId = dragOverPlayerId then currentPlayers
  else
    match currentPlayers.find? (fun p => p.id == draggedPlayerId),
          currentPlayers.find? (fun p => p.id == dragOverPlayerId) with
    | some draggedPlayer, some targetPlayer =>
      if draggedPlayer.isDrafted || targetPlayer.isDrafted then currentPlayers
      else
        reRank 1 (insertBeforeFirst (fun p => p.id == dragOverPlayerId) draggedPlayer
          (currentPlayers.eraseP (fun p => p.id == draggedPlayerId)))
    | _, _ => currentPlayers

/-- The undrafted partition of a roster. -/
def undraftedOf (r : List Player) : List Player := r.filter (fun p => !p.isDrafted)

/-- Invariant I2, partitioned-ranking reading: the ranks of the undrafted
players are a dense permutation of `1..countUndrafted()`. -/
def undraftedDense (r : List Player) : Prop :=
  ((undraftedOf r).map (fun p => p.rank)).Perm (List.range' 1 (undraftedOf r).length)

instance (r : List Player) : Decidable (undraftedDense r) := by
  unfold undraftedDense; exact List.decidablePerm _ _

/-- Invariant I2, full-roster reading: the ranks of all players are a dense
permutation of `1..countAll()`. -/
def fullDense (r : List Player) : Prop :=
  (r.map (fun p => p.rank)).Perm (List.range' 1 r.length)

instance (r : List Player) : Decidable (fullDense r) := by
  unfold fullDense; exact List.decidablePerm _ _

/-- Roster states of the partitioned variant reachable from an initial
catalog load by the public operations named in the spec: drag-drop reorder,
`toggleDrafted`, tag toggle, catalog-refresh merge, external pick. -/
inductive Reachable : List Player → Prop where
  | load (data : List RawRecord) :
      Reachable (mergeCatalogRefresh [] (normalizeSleeperData data))
  | reorder (r : List Player) (d t : Int) :
      Reachable r → Reachable (handleDrop r d t)
  | toggle (r : List Player) (i : Int) :
      Reachable r → Reachable (handleToggleDraftStatus r i)
  | tag (r : List Player) (i : Int) (tag : String) :
      Reachable r → Reachable (handleTogglePlayerTag r i tag)
  | pick (r : List Player) (i : Int) :
      Reachable r → Reachable (applyExternalPick r i)
  | merge (r : List Player) (data : List RawRecord) :
      Reachable r → Reachable (mergeCatalogRefresh r (normalizeSleeperData data))

/-- Roster states of the full-roster variant reachable from an initial
catalog load (a catalog refresh fully replaces the roster in this variant)
by its public operations. -/
inductive ReachableA : List Player → Prop where
  | load (data : List RawRecord) : ReachableA (normalizeSleeperData data)
  | reorder (r : List Player) (d t : Int) :
      ReachableA r → ReachableA (handleDropA r d t)
  | toggle (r : List Player) (i : Int) :
      ReachableA r → ReachableA (handleToggleDraftStatusA r i)
  | tag (r : List Player) (i : Int) (tag : String) :
      ReachableA r → ReachableA (handleTogglePlayerTag r i tag)
  | pick (r : List Player) (i : Int) :
      ReachableA r → ReachableA (applyExternalPick r i)
  | picksMerge (r : List Player) (ids : List Int) :
      ReachableA r → ReachableA (applyPicksMerge r ids)

/-- All fields of a `Player` except `rank`; two players with equal `coreOf`
differ at most in their rank. -/
def coreOf (p : Player) : Int × String × Option String × String × Bool × List String :=
  (p.id, p.name, p.team, p.position, p.isDrafted, p.tags)

/-- Reference reorder from the spec (§4.3 `computeReorder`): within the
eligible (undrafted) partition, remove the dragged element and reinsert it
at the target element's current position, shifting the target and everything
after it down by one, then densely re-enumerate ranks `1..N` and keep the
drafted entries appended after; a no-op when either id is absent from the
eligible set (in particular when an endpoint is drafted) or the ids are
equal. -/
def computeReorderSpec (roster : List Player) (draggedId targetId : Int) : List Player :=
  let eligible := roster.filter (fun p => !p.isDrafted)
  match eligible.find? (fun p => p.id == draggedId),
        eligible.find? (fun p => p.id == targetId) with
  | some dragged, some _ =>
    if draggedId = targetId then roster
    else
      let removedList := eligible.eraseP (fun p => p.id == draggedId)
      let reordered := insertBeforeFirst (fun p => p.id == targetId) dragged removedList
      reRank 1 reordered ++ roster.filter (fun p => p.isDrafted)
  | _, _ => roster

/-- The intermediate `sortedPlayers` list of `normalizeSleeperData`
(filtered raw records in sorted order); `normalizeSleeperData data` is
definitionally `toPlayers 1 (sortedCatalog data)`. -/
def sortedCatalog (data : List RawRecord) : List RawRecord :=
  sortBy rawLe (data.filter rawKeep)

/-- Ordering guaranteed between two raw records (neither with a missing
score) placed in this order by the normalizer's sort: either the later one
has a null score, or both are numeric and ascending. -/
def srOrd (a b : RawRecord) : Prop :=
  b.search_rank = SRank.snull ∨
    ∃ x y, a.search_rank = SRank.num x ∧ b.search_rank = SRank.num y ∧ x ≤ y

/-- The ordering property claimed for the merge: scanning the merged roster
left to right, once a player not in the old roster (a brand-new catalog
player) has appeared, every later player is also brand-new — i.e. the new
players are ranked after all retained players. -/
def newPlayersLast (current new : List Player) : Prop :=
  List.Pairwise
    (fun a b => notInRoster current a = true → notInRoster current b = true)
    (mergeCatalogRefresh current new)

instance (current new : List Player) : Decidable (newPlayersLast current new) := by
  unfold newPlayersLast
  infer_instance

/-! ### Concrete fixtures used by witnesses and counterexamples -/

/-- Fixture: undrafted player `A`, rank 1. -/
def pFixA : Player :=
  { id := 1, rank := 1, name := "A", team := none, position := "QB",
    isDrafted := false, tags := [] }

/-- Fixture: undrafted player `B`, rank 2. -/
def pFixB : Player :=
  { id := 2, rank := 2, name := "B", team := none, position := "RB",
    isDrafted := false, tags := [] }

/-- Fixture: undrafted player `C`, rank 3. -/
def pFixC : Player :=
  { id := 3, rank := 3, name := "C", team := none, position := "WR",
    isDrafted := false, tags := [] }

/-- Fixture: a drafted roster player with id 10. -/
def pFixXold : Player :=
  { id := 10, rank := 1, name := "X", team := none, position := "QB",
    isDrafted := true, tags := ["My Man"] }

/-- Fixture: the same player (id 10) as reported by a fresh catalog. -/
def pFixXnew : Player :=
  { id := 10, rank := 1, name := "X renamed", team := some "KC", position := "QB",
    isDrafted := false, tags := [] }

/-- Fixture: a brand-new catalog player with id 11. -/
def pFixY : Player :=
  { id := 11, rank := 2, name := "Y", team := none, position := "RB",
    isDrafted := false, tags := [] }

/-- Fixture: an active QB raw record with the given id and score. -/
def rawFix (i : Int) (sr : SRank) : RawRecord :=
  { player_id := i, first_name := "First", last_name := "Last", team := none,
    position := some "QB", status := "Active", search_rank := sr, years_exp := 3 }

/-- Fixture: a two-record catalog with numeric scores 1 and 2. -/
def rawTwo : List RawRecord := [rawFix 1 (SRank.num 1), rawFix 2 (SRank.num 2)]

/-- Fixture: the roster produced by loading `rawTwo` and then applying an
external pick for player 1 (reachable in the partitioned variant). -/
def pickedState : List Player :=
  applyExternalPick (mergeCatalogRefresh [] (normalizeSleeperData rawTwo)) 1

/-! ### Generic lemmas about the sorting and splicing combinators -/

theorem insertBy_perm (le : α → α → Bool) (x : α) (l : List α) :
    (insertBy le x l).Perm (x :: l) := by
  induction l with
  | nil => exact List.Perm.refl _
  | cons y ys ih =>
    by_cases h : le x y
    · simp [insertBy, h]
    · simp only [insertBy, h, if_neg, Bool.false_eq_true, not_false_eq_true, ite_false]
      exact (ih.cons y).trans (List.Perm.swap x y ys)

theorem sortBy_perm (le : α → α → Bool) (l : List α) : (sortBy le l).Perm l := by
  induction l with
  | nil => exact List.Perm.refl _
  | cons x xs ih => exact (insertBy_perm le x (sortBy le xs)).trans (ih.cons x)

theorem insertBeforeFirst_perm (q : α → Bool) (x : α) (l : List α) :
    (insertBeforeFirst q x l).Perm (x :: l) := by
  induction l with
  | nil => exact List.Perm.refl _
  | cons y ys ih =>
    by_cases h : q y
    · simp [insertBeforeFirst, h]
    · simp only [insertBeforeFirst, h, Bool.false_eq_true, not_false_eq_true, ite_false]
      exact (ih.cons y).trans (List.Perm.swap x y ys)

theorem find?_cons_eraseP_perm (p : α → Bool) (l : List α) (a : α)
    (h : l.find? p = some a) : (a :: l.eraseP p).Perm l := by
  induction l with
  | nil => simp at h
  | cons x xs ih =>
    by_cases hx : p x
    · rw [List.find?_cons_of_pos _ hx] at h
      injection h with h; subst h
      simp [List.eraseP_cons_of_pos, hx]
    · rw [List.find?_cons_of_neg _ (by simpa using hx)] at h
      have herase : (x :: xs).eraseP p = x :: xs.eraseP p := by
        simp [List.eraseP_cons_of_neg, hx]
      rw [herase]
      exact (List.Perm.swap x a _).trans ((ih h).cons x)

theorem pairwise_insertBy_of (le : α → α → Bool) (le' : α → α → Prop) (L : List α)
    (h1 : ∀ a ∈ L, ∀ b ∈ L, le a b = true → le' a b)
    (h2 : ∀ a ∈ L, ∀ b ∈ L, le a b = false → le' b a)
    (htr : ∀ a ∈ L, ∀ b ∈ L, ∀ c ∈ L, le' a b → le' b c → le' a c)
    (x : α) (hx : x ∈ L) (l : List α) (hl : ∀ y ∈ l, y ∈ L)
    (hp : List.Pairwise le' l) : List.Pairwise le' (insertBy le x l) := by
  induction l with
  | nil => simp [insertBy]
  | cons y ys ih =>
    have hy : y ∈ L := hl y (by simp)
    have hys : ∀ z ∈ ys, z ∈ L := fun z hz => hl z (by simp [hz])
    rcases List.pairwise_cons.mp hp with ⟨hyz, hpys⟩
    by_cases h : le x y
    · simp only [insertBy, h, ite_true]
      refine List.pairwise_cons.mpr ⟨?_, hp⟩
      intro z hz
      rcases List.mem_cons.mp hz with rfl | hz
      · exact h1 x hx z hy h
      · exact htr x hx y hy z (hys z hz) (h1 x hx y hy h) (hyz z hz)
    · simp only [insertBy, h, Bool.false_eq_true, not_false_eq_true, ite_false]
      refine List.pairwise_cons.mpr ⟨?_, ih hys hpys⟩
      intro z hz
      have hz' : z = x ∨ z ∈ ys := by
        have := (insertBy_perm le x ys).mem_iff.mp hz
        simpa using this
      rcases hz' with rfl | hz'
      · exact h2 z hx y hy (by simpa using h)
      · exact hyz z hz'

theorem pairwise_sortBy_of (le : α → α → Bool) (le' : α → α → Prop) (l : List α)
    (h1 : ∀ a ∈ l, ∀ b ∈ l, le a b = true → le' a b)
    (h2 : ∀ a ∈ l, ∀ b ∈ l, le a b = false → le' b a)
    (htr : ∀ a ∈ l, ∀ b ∈ l, ∀ c ∈ l, le' a b → le' b c → le' a c) :
    List.Pairwise le' (sortBy le l) := by
  induction l with
  | nil => simp [sortBy]
  | cons x xs ih =>
    have hx : x ∈ x :: xs := by simp
    have hxs : ∀ y ∈ xs, y ∈ x :: xs := fun y hy => by simp [hy]
    have hsub : ∀ y ∈ sortBy le xs, y ∈ x :: xs := fun y hy =>
      hxs y ((sortBy_perm le xs).mem_iff.mp hy)
    have ihp : List.Pairwise le' (sortBy le xs) :=
      ih (fun a ha b hb => h1 a (hxs a ha) b (hxs b hb))
        (fun a ha b hb => h2 a (hxs a ha) b (hxs b hb))
        (fun a ha b hb c hc => htr a (hxs a ha) b (hxs b hb) c (hxs c hc))
    exact pairwise_insertBy_of le le' (x :: xs) h1 h2 htr x hx (sortBy le xs) hsub ihp

/-! ### Lemmas about `reRank` and `toPlayers` -/

theorem reRank_length (n : Nat) (l : List Player) : (reRank n l).length = l.length := by
  induction l generalizing n with
  | nil => rfl
  | cons p ps ih => simp [reRank, ih]

theorem reRank_map_rank (n : Nat) (l : List Player) :
    (reRank n l).map (fun p => p.rank) = List.range' n l.length := by
  induction l generalizing n with
  | nil => rfl
  | cons p ps ih => simp [reRank, List.range'_succ, ih]

theorem mem_reRank (n : Nat) (l : List Player) (p : Player) (h : p ∈ reRank n l) :
    ∃ q ∈ l, ∃ m, p = { q with rank := m } := by
  induction l generalizing n with
  | nil => simp [reRank] at h
  | cons q qs ih =>
    rcases List.mem_cons.mp h with rfl | h
    · exact ⟨q, by simp, n, rfl⟩
    · rcases ih (n + 1) h with ⟨q', hq', m, hm⟩
      exact ⟨q', by simp [hq'], m, hm⟩

theorem reRank_map_of_rankIndep (g : Player → β)
    (hg : ∀ p n, g { p with rank := n } = g p) (n : Nat) (l : List Player) :
    (reRank n l).map g = l.map g := by
  induction l generalizing n with
  | nil => rfl
  | cons p ps ih => simp [reRank, hg, ih]

theorem reRank_filter_map (q : Player → Bool) (g : Player → β)
    (hq : ∀ p n, q { p with rank := n } = q p)
    (hg : ∀ p n, g { p with rank := n } = g p) (n : Nat) (l : List Player) :
    ((reRank n l).filter q).map g = (l.filter q).map g := by
  induction l generalizing n with
  | nil => rfl
  | cons p ps ih =>
    by_cases h : q p
    · simp [reRank, List.filter_cons, hq, h, hg, ih]
    · simp only [reRank, List.filter_cons, hq, h, Bool.false_eq_true, ite_false, ih]

theorem toPlayers_length (n : Nat) (l : List RawRecord) : (toPlayers n l).length = l.length := by
  induction l generalizing n with
  | nil => rfl
  | cons p ps ih => simp [toPlayers, ih]

theorem toPlayers_map_rank (n : Nat) (l : List RawRecord) :
    (toPlayers n l).map (fun p => p.rank) = List.range' n l.length := by
  induction l generalizing n with
  | nil => rfl
  | cons p ps ih => simp [toPlayers, List.range'_succ, ih]

theorem toPlayers_isDrafted (n : Nat) (l : List RawRecord) :
    ∀ p ∈ toPlayers n l, p.isDrafted = false := by
  induction l generalizing n with
  | nil => simp [toPlayers]
  | cons q qs ih =>
    intro p hp
    rcases List.mem_cons.mp hp with rfl | hp
    · rfl
    · exact ih (n + 1) p hp

/-! ### The rank-free core of a player record -/

theorem mapg_partition (g : Player → β) (hg : ∀ p n, g { p with rank := n } = g p)
    (X : List Player) :
    ((reRank 1 (sortBy rankLe (X.filter (fun p => !p.isDrafted))) ++
      X.filter (fun p => p.isDrafted)).map g).Perm (X.map g) := by
  rw [List.map_append, reRank_map_of_rankIndep g hg]
  have h1 : ((sortBy rankLe (X.filter (fun p => !p.isDrafted))).map g).Perm
      ((X.filter (fun p => !p.isDrafted)).map g) := (sortBy_perm _ _).map g
  have hfe : X.filter (fun x => !(!x.isDrafted)) = X.filter (fun p => p.isDrafted) :=
    List.filter_congr (fun x _ => by simp)
  have h2 : ((X.filter (fun p => !p.isDrafted)) ++ (X.filter (fun p => p.isDrafted))).Perm X := by
    rw [← hfe]; exact List.filter_append_perm _ X
  exact (h1.append (List.Perm.refl _)).trans (by rw [← List.map_append]; exact h2.map g)

/-! ### Density lemmas -/

theorem filter_reRank_undrafted (u : List Player) (hu : ∀ p ∈ u, p.isDrafted = false)
    (n : Nat) : (reRank n u).filter (fun p => !p.isDrafted) = reRank n u := by
  rw [List.filter_eq_self]
  intro p hp
  rcases mem_reRank n u p hp with ⟨q, hq, m, rfl⟩
  simp [hu q hq]

theorem undraftedDense_reRank_append (u d : List Player)
    (hu : ∀ p ∈ u, p.isDrafted = false) (hd : ∀ p ∈ d, p.isDrafted = true) :
    undraftedDense (reRank 1 u ++ d) := by
  unfold undraftedDense undraftedOf
  have hd' : d.filter (fun p => !p.isDrafted) = [] := by
    rw [List.filter_eq_nil_iff]
    intro p hp
    simp [hd p hp]
  rw [List.filter_append, filter_reRank_undrafted u hu, hd', List.append_nil,
    reRank_map_rank, reRank_length]

theorem undraftedDense_toggle (r : List Player) (i : Int) :
    undraftedDense (handleToggleDraftStatus r i) := by
  simp only [handleToggleDraftStatus]
  apply undraftedDense_reRank_append
  · intro p hp
    have hmem := (sortBy_perm rankLe _).mem_iff.mp hp
    simpa using (List.mem_filter.mp hmem).2
  · intro p hp
    simpa using (List.mem_filter.mp hp).2

theorem filter_toPlayers_undrafted (n : Nat) (l : List RawRecord) :
    (toPlayers n l).filter (fun p => !p.isDrafted) = toPlayers n l := by
  rw [List.filter_eq_self]
  intro p hp
  simp [toPlayers_isDrafted n l p hp]

theorem undraftedDense_normalize (data : List RawRecord) :
    undraftedDense (normalizeSleeperData data) := by
  unfold undraftedDense undraftedOf normalizeSleeperData
  rw [filter_toPlayers_undrafted, toPlayers_map_rank, toPlayers_length]

theorem undraftedDense_merge (current : List Player) (data : List RawRecord) :
    undraftedDense (mergeCatalogRefresh current (normalizeSleeperData data)) := by
  by_cases h : current.length = 0
  · unfold mergeCatalogRefresh
    rw [if_pos h]
    exact undraftedDense_normalize data
  · unfold mergeCatalogRefresh
    rw [if_neg h]
    simp only []
    apply undraftedDense_reRank_append
    · intro p hp
      have hmem := (sortBy_perm rankLe _).mem_iff.mp hp
      simpa using (List.mem_filter.mp hmem).2
    · intro p hp
      simpa using (List.mem_filter.mp hp).2

theorem filter_map_comm (f : Player → Player) (q : Player → Bool)
    (hf : ∀ p, q (f p) = q p) (l : List Player) :
    (l.map f).filter q = (l.filter q).map f := by
  induction l with
  | nil => rfl
  | cons p ps ih =>
    by_cases h : q p
    · simp [List.filter_cons, hf, h, ih]
    · simp only [List.map_cons, List.filter_cons, hf, h, Bool.false_eq_true, ite_false, ih]

theorem undraftedDense_map_of_pres (f : Player → Player)
    (hd : ∀ p, (f p).isDrafted = p.isDrafted) (hr : ∀ p, (f p).rank = p.rank)
    (r : List Player) (h : undraftedDense r) : undraftedDense (r.map f) := by
  unfold undraftedDense undraftedOf at h ⊢
  rw [filter_map_comm f _ (fun p => by rw [hd]), List.map_map, List.length_map]
  have hmr : List.map ((fun p => p.rank) ∘ f) (r.filter (fun p => !p.isDrafted))
      = List.map (fun p => p.rank) (r.filter (fun p => !p.isDrafted)) :=
    List.map_congr_left (fun a _ => hr a)
  rw [hmr]
  exact h

theorem undraftedDense_tag (r : List Player) (i : Int) (tg : String)
    (h : undraftedDense r) : undraftedDense (handleTogglePlayerTag r i tg) := by
  apply undraftedDense_map_of_pres _ _ _ _ h
  · intro p
    by_cases hp : p.id == i <;> simp [hp]
  · intro p
    by_cases hp : p.id == i <;> simp [hp]

theorem mem_insertBeforeFirst (q : α → Bool) (x : α) (l : List α) (z : α)
    (h : z ∈ insertBeforeFirst q x l) : z = x ∨ z ∈ l := by
  have := (insertBeforeFirst_perm q x l).mem_iff.mp h
  simpa using this

theorem undraftedDense_drop (r : List Player) (d t : Int) (h : undraftedDense r) :
    undraftedDense (handleDrop r d t) := by
  unfold handleDrop
  split
  · exact h
  · split
    · split
      · exact h
      · simp only []
        split
        · rename_i removed hrem
          apply undraftedDense_reRank_append
          · intro p hp
            rcases mem_insertBeforeFirst _ _ _ p hp with rfl | hp'
            · have hmem := List.mem_of_find?_eq_some hrem
              simpa using (List.mem_filter.mp hmem).2
            · have hsub : p ∈ r.filter (fun p => !p.isDrafted) :=
                (List.eraseP_sublist _).mem hp'
              simpa using (List.mem_filter.mp hsub).2
          · intro p hp
            simpa using (List.mem_filter.mp hp).2
        · exact h
    · exact h

/-! ### Full-roster density (first variant) -/

theorem fullDense_reRank (l : List Player) : fullDense (reRank 1 l) := by
  unfold fullDense
  rw [reRank_map_rank, reRank_length]

theorem fullDense_map_of_rank_pres (f : Player → Player) (hr : ∀ p, (f p).rank = p.rank)
    (r : List Player) (h : fullDense r) : fullDense (r.map f) := by
  unfold fullDense at h ⊢
  rw [List.map_map, List.length_map]
  have hmr : List.map ((fun p => p.rank) ∘ f) r = List.map (fun p => p.rank) r :=
    List.map_congr_left (fun a _ => hr a)
  rw [hmr]
  exact h

theorem fullDense_normalize (data : List RawRecord) :
    fullDense (normalizeSleeperData data) := by
  unfold fullDense normalizeSleeperData
  rw [toPlayers_map_rank, toPlayers_length]

theorem reachableA_fullDense (s : List Player) (h : ReachableA s) : fullDense s := by
  induction h with
  | load data => exact fullDense_normalize data
  | reorder r d t _ ih =>
    unfold handleDropA
    split
    · exact ih
    · split
      · split
        · exact ih
        · exact fullDense_reRank _
      · exact ih
  | toggle r i _ ih =>
    unfold handleToggleDraftStatusA
    exact fullDense_map_of_rank_pres _
      (fun p => by by_cases hp : p.id == i <;> simp [hp]) r ih
  | tag r i tg _ ih =>
    unfold handleTogglePlayerTag
    exact fullDense_map_of_rank_pres _
      (fun p => by by_cases hp : p.id == i <;> simp [hp]) r ih
  | pick r i _ ih =>
    unfold applyExternalPick
    exact fullDense_map_of_rank_pres _
      (fun p => by by_cases hp : p.id == i <;> simp [hp]) r ih
  | picksMerge r ids _ ih =>
    unfold applyPicksMerge
    exact fullDense_map_of_rank_pres
      (fun p => { p with isDrafted := p.isDrafted || ids.contains p.id }) (fun p => rfl) r ih

/-! ### `find?` on lists with unique ids -/

theorem find?_eq_some_of_nodup (l : List Player) (hn : (l.map (fun p => p.id)).Nodup)
    (p : Player) (hp : p ∈ l) (i : Int) (hpi : p.id = i) :
    l.find? (fun q => q.id == i) = some p := by
  induction l with
  | nil => simp at hp
  | cons x xs ih =>
    have hn' : (xs.map (fun p => p.id)).Nodup := (List.nodup_cons.mp (by simpa using hn)).2
    rcases List.mem_cons.mp hp with rfl | hp'
    · exact @List.find?_cons_of_pos _ (fun q => q.id == i) p xs (by simp [hpi])
    · have hx : ¬((fun q => q.id == i) x) = true := by
        intro hcon
        have hxid : x.id = i := by simpa using hcon
        have hxnot : x.id ∉ xs.map (fun p => p.id) :=
          (List.nodup_cons.mp (by simpa using hn)).1
        exact hxnot (by
          rw [hxid, ← hpi]
          exact List.mem_map_of_mem _ hp')
      rw [@List.find?_cons_of_neg _ (fun q => q.id == i) x xs hx]
      exact ih hn' hp'

theorem mapLookup_eq_some_of_nodup (new : List Player)
    (hn : (new.map (fun p => p.id)).Nodup) (np : Player) (hnp : np ∈ new) :
    mapLookup new np.id = some np := by
  unfold mapLookup
  apply find?_eq_some_of_nodup
  · rw [List.map_reverse]
    exact List.nodup_reverse.mpr hn
  · exact List.mem_reverse.mpr hnp
  · rfl

/-! ### External pick lemmas -/

theorem applyExternalPick_idem (r : List Player) (i : Int) :
    applyExternalPick (applyExternalPick r i) i = applyExternalPick r i := by
  unfold applyExternalPick
  rw [List.map_map]
  apply List.map_congr_left
  intro p _
  by_cases hp : p.id == i
  · simp [Function.comp, hp]
  · simp [Function.comp, hp]

/-! ### Id-multiset preservation helpers -/

theorem mapId_partition_of_map (f : Player → Player) (hid : ∀ p, (f p).id = p.id)
    (r : List Player) :
    ((reRank 1 (sortBy rankLe ((r.map f).filter (fun p => !p.isDrafted))) ++
      (r.map f).filter (fun p => p.isDrafted)).map (fun p => p.id)).Perm
      (r.map (fun p => p.id)) := by
  have h1 := mapg_partition (fun p => p.id) (fun p n => rfl) (r.map f)
  have h2 : (r.map f).map (fun p => p.id) = r.map (fun p => p.id) := by
    rw [List.map_map]
    exact List.map_congr_left (fun a _ => hid a)
  rw [h2] at h1
  exact h1

theorem mapId_toggle (r : List Player) (i : Int) :
    ((handleToggleDraftStatus r i).map (fun p => p.id)).Perm (r.map (fun p => p.id)) := by
  unfold handleToggleDraftStatus
  exact mapId_partition_of_map _
    (fun p => by by_cases hp : p.id == i <;> simp [hp]) r

theorem mapId_of_pointwise (f : Player → Player) (hid : ∀ p, (f p).id = p.id)
    (r : List Player) : (r.map f).map (fun p => p.id) = r.map (fun p => p.id) := by
  rw [List.map_map]
  exact List.map_congr_left (fun a _ => hid a)

theorem mapId_drop (r : List Player) (d t : Int) :
    ((handleDrop r d t).map (fun p => p.id)).Perm (r.map (fun p => p.id)) := by
  unfold handleDrop
  split
  · exact List.Perm.refl _
  · split
    · split
      · exact List.Perm.refl _
      · simp only []
        split
        · rename_i removed hrem
          rw [List.map_append, reRank_map_of_rankIndep (fun p => p.id) (fun p n => rfl)]
          have hins : ((insertBeforeFirst (fun p => p.id == t) removed
              (List.eraseP (fun p => p.id == d)
                (r.filter (fun p => !p.isDrafted)))).map (fun p => p.id)).Perm
              ((r.filter (fun p => !p.isDrafted)).map (fun p => p.id)) :=
            ((insertBeforeFirst_perm _ _ _).trans
              (find?_cons_eraseP_perm _ _ _ hrem)).map _
          have hparts : ((r.filter (fun p => !p.isDrafted)).map (fun p => p.id) ++
              (r.filter (fun p => p.isDrafted)).map (fun p => p.id)).Perm
              (r.map (fun p => p.id)) := by
            rw [← List.map_append]
            refine List.Perm.map _ ?_
            have hfe : r.filter (fun x => !(!x.isDrafted)) = r.filter (fun p => p.isDrafted) :=
              List.filter_congr (fun x _ => by simp)
            rw [← hfe]
            exact List.filter_append_perm _ r
          exact (hins.append (List.Perm.refl _)).trans hparts
        · exact List.Perm.refl _
    · exact List.Perm.refl _

/-! ### Double-toggle core lemmas -/

theorem toggle_core_perm (r : List Player) (i : Int) (g : Player → β)
    (hg : ∀ p n, g { p with rank := n } = g p) :
    ((handleToggleDraftStatus r i).map g).Perm
      ((r.map (fun p =>
        if p.id == i then { p with isDrafted := !p.isDrafted } else p)).map g) := by
  unfold handleToggleDraftStatus
  exact mapg_partition g hg _

/-! ### Claim theorems -/

/-- C3: applying the external draft-pick update for a given player id
`n > 1` (indeed `n ≥ 1`) times yields exactly the same roster as applying
it once. -/
theorem c3_applyExternalPick_idempotent (r : List Player) (i : Int) (n : Nat) (h : 0 < n) :
    (fun s => applyExternalPick s i)^[n] r = applyExternalPick r i := by
  induction n generalizing r with
  | zero => exact absurd h (Nat.lt_irrefl 0)
  | succ m ih =>
    rw [Function.iterate_succ_apply]
    rcases Nat.eq_zero_or_pos m with rfl | hm
    · rw [Function.iterate_zero_apply]
    · rw [ih (applyExternalPick r i) hm]
      exact applyExternalPick_idem r i

/-- Witness for C3 at `n = 2` on a concrete two-player roster. -/
theorem c3_witness :
    0 < 2 ∧ (fun s => applyExternalPick s 1)^[2] [pFixA, pFixB]
      = applyExternalPick [pFixA, pFixB] 1 :=
  ⟨by decide, c3_applyExternalPick_idempotent [pFixA, pFixB] 1 2 (by decide)⟩

/-- C4: feed-originated updates never un-draft a player — both the
pick-snapshot merge and a live pick event keep every already-drafted player
drafted (position by position), and only the explicit remove-sync action
resets all `isDrafted` flags to `false`. -/
theorem c4_feed_monotonic (r : List Player) (ids : List Int) (i : Int) :
    List.Forall₂ (fun p q => p.isDrafted = true → q.isDrafted = true) r
      (applyPicksMerge r ids) ∧
    List.Forall₂ (fun p q => p.isDrafted = true → q.isDrafted = true) r
      (applyExternalPick r i) ∧
    ∀ p ∈ handleRemoveSync r, p.isDrafted = false := by
  refine ⟨?_, ?_, ?_⟩
  · unfold applyPicksMerge
    rw [List.forall₂_map_right_iff, List.forall₂_same]
    intro x _ hx
    simp [hx]
  · unfold applyExternalPick
    rw [List.forall₂_map_right_iff, List.forall₂_same]
    intro x _ hx
    by_cases hp : x.id == i <;> simp [hp, hx]
  · intro p hp
    unfold handleRemoveSync at hp
    rcases List.mem_map.mp hp with ⟨q, _, rfl⟩
    rfl

/-- C9: an external pick event whose player id matches no roster player
leaves the roster completely unchanged (the operation is total, so no
exception can be raised). -/
theorem c9_unmatched_pick_noop (r : List Player) (pid : Int) (h : ∀ p ∈ r, p.id ≠ pid) :
    applyExternalPick r pid = r := by
  unfold applyExternalPick
  have hcong : ∀ p ∈ r, (if p.id == pid then { p with isDrafted := true } else p) = p := by
    intro p hp
    rw [if_neg (by simp [h p hp])]
  rw [List.map_congr_left hcong]
  simp

/-- Witness for C9: a pick for absent id 99 on a concrete roster. -/
theorem c9_witness :
    (∀ p ∈ [pFixA, pFixB], p.id ≠ 99) ∧
    applyExternalPick [pFixA, pFixB] 99 = [pFixA, pFixB] :=
  ⟨by decide, c9_unmatched_pick_noop [pFixA, pFixB] 99 (by decide)⟩

/-- C10: drag-drop reorder, tag toggle, `toggleDrafted` and external-pick
application each preserve the multiset of player ids, for every roster and
any arguments. -/
theorem c10_id_multiset_preserved (r : List Player) (d t i k : Int) (tg : String) :
    ((handleDrop r d t).map (fun p => p.id)).Perm (r.map (fun p => p.id)) ∧
    ((handleTogglePlayerTag r i tg).map (fun p => p.id)).Perm (r.map (fun p => p.id)) ∧
    ((handleToggleDraftStatus r i).map (fun p => p.id)).Perm (r.map (fun p => p.id)) ∧
    ((applyExternalPick r k).map (fun p => p.id)).Perm (r.map (fun p => p.id)) := by
  refine ⟨mapId_drop r d t, ?_, mapId_toggle r i, ?_⟩
  · unfold handleTogglePlayerTag
    rw [mapId_of_pointwise _ (fun p => by by_cases hp : p.id == i <;> simp [hp]) r]
  · unfold applyExternalPick
    rw [mapId_of_pointwise _ (fun p => by by_cases hp : p.id == k <;> simp [hp]) r]

/-- C6 counterexample: on the partition-dense roster `[A(u,1), B(u,2)]`,
toggling player 1 twice restores every `isDrafted` flag but permutes the
ranks — the untouched player B ends with rank 1 instead of its original
rank 2 (the re-toggled player re-enters after the equally-ranked B), so the
double toggle does not restore the rank ordering of untouched players. -/
theorem c6_counterexample :
    undraftedDense [pFixA, pFixB] ∧
    (handleToggleDraftStatus (handleToggleDraftStatus [pFixA, pFixB] 1) 1).map
        (fun p => (p.id, p.rank, p.isDrafted)) = [(2, 1, false), (1, 2, false)] ∧
    ¬ handleToggleDraftStatus (handleToggleDraftStatus [pFixA, pFixB] 1) 1
        = [pFixA, pFixB] := by decide

/-- C6 amended: toggling `isDrafted` twice on the same id restores every
player's rank-free fields (`isDrafted` included) up to reordering — the
multiset of rank-erased records round-trips — and leaves the undrafted
ranks dense; but the rank ordering of the other, untouched players is not
restored in general. -/
theorem c6_double_toggle_amended (r : List Player) (i : Int) :
    ((handleToggleDraftStatus (handleToggleDraftStatus r i) i).map coreOf).Perm
      (r.map coreOf) ∧
    undraftedDense (handleToggleDraftStatus (handleToggleDraftStatus r i) i) := by
  constructor
  · have h1 := toggle_core_perm (handleToggleDraftStatus r i) i coreOf (fun p n => rfl)
    rw [List.map_map] at h1
    have hg2 : ∀ p n, (coreOf ∘ fun p =>
        if p.id == i then { p with isDrafted := !p.isDrafted } else p) { p with rank := n }
        = (coreOf ∘ fun p =>
        if p.id == i then { p with isDrafted := !p.isDrafted } else p) p := by
      intro p n
      by_cases hp : p.id == i <;> simp [coreOf, Function.comp, hp]
    have h2 := toggle_core_perm r i _ hg2
    rw [List.map_map] at h2
    have h3 : r.map ((coreOf ∘ fun p =>
        if p.id == i then { p with isDrafted := !p.isDrafted } else p)
        ∘ fun p => if p.id == i then { p with isDrafted := !p.isDrafted } else p)
        = r.map coreOf := by
      apply List.map_congr_left
      intro a _
      by_cases ha : a.id == i <;> simp [coreOf, Function.comp, ha]
    rw [h3] at h2
    exact h1.trans h2
  · exact undraftedDense_toggle _ i

/-- C1 counterexample: the state reached by loading a two-player catalog
and then applying an external pick for player 1 is reachable by the public
operations, yet its undrafted ranks are `[2]`, not a dense permutation of
`1..1` — the pick marks the player drafted without re-ranking. -/
theorem c1_counterexample : Reachable pickedState ∧ ¬ undraftedDense pickedState :=
  ⟨Reachable.pick _ 1 (Reachable.load rawTwo), by decide⟩

/-- C1 amended: in the full-roster-ranking variant every reachable state has
dense ranks `1..countAll()`; in the partitioned variant `toggleDrafted` and
the catalog-refresh merge re-establish dense undrafted ranks
unconditionally, and drag-drop reorder and tag toggles preserve them — but
an external pick can break them (see the counterexample). -/
theorem c1_dense_amended :
    (∀ s, ReachableA s → fullDense s) ∧
    (∀ (r : List Player) (i : Int), undraftedDense (handleToggleDraftStatus r i)) ∧
    (∀ (current : List Player) (data : List RawRecord),
      undraftedDense (mergeCatalogRefresh current (normalizeSleeperData data))) ∧
    (∀ (r : List Player) (d t : Int),
      undraftedDense r → undraftedDense (handleDrop r d t)) ∧
    (∀ (r : List Player) (i : Int) (tg : String),
      undraftedDense r → undraftedDense (handleTogglePlayerTag r i tg)) :=
  ⟨reachableA_fullDense, undraftedDense_toggle, undraftedDense_merge,
   undraftedDense_drop, undraftedDense_tag⟩

/-- Witness for C1 (amended) at concrete inputs. -/
theorem c1_witness :
    fullDense (normalizeSleeperData rawTwo) ∧
    undraftedDense [pFixA, pFixB] ∧
    undraftedDense (handleDrop [pFixA, pFixB] 1 2) ∧
    undraftedDense (handleTogglePlayerTag [pFixA, pFixB] 1 "Bust") :=
  ⟨c1_dense_amended.1 _ (ReachableA.load rawTwo),
   by decide,
   c1_dense_amended.2.2.2.1 [pFixA, pFixB] 1 2 (by decide),
   c1_dense_amended.2.2.2.2 [pFixA, pFixB] 1 "Bust" (by decide)⟩

/-! ### Catalog-merge frame lemmas -/

theorem mergeUpdate_id (newPlayers : List Player) (p : Player) :
    (mergeUpdate newPlayers p).id = p.id := by
  unfold mergeUpdate
  rcases h : mapLookup newPlayers p.id with _ | q <;> simp [h]

theorem merge_core_perm (current new : List Player) (h : ¬ current.length = 0) :
    ((mergeCatalogRefresh current new).map coreOf).Perm
      ((mergeCombined current new).map coreOf) := by
  unfold mergeCatalogRefresh
  rw [if_neg h]
  exact mapg_partition coreOf (fun p n => rfl) _

/-- C2: for every current roster and fresh catalog (both with unique ids),
a player surviving the catalog-refresh merge carries the new catalog's
`name`, `team` and `position` while its `tags` and `isDrafted` are exactly
preserved; such a player is present in the merged roster. -/
theorem c2_merge_preserves_user_fields (current new : List Player) (p np : Player)
    (hcn : (current.map (fun q => q.id)).Nodup)
    (hnn : (new.map (fun q => q.id)).Nodup)
    (hp : p ∈ current) (hnp : np ∈ new) (hid : np.id = p.id) :
    (∃ p' ∈ mergeCatalogRefresh current new, p'.id = p.id) ∧
    (∀ p' ∈ mergeCatalogRefresh current new, p'.id = p.id →
      p'.name = np.name ∧ p'.team = np.team ∧ p'.position = np.position ∧
      p'.tags = p.tags ∧ p'.isDrafted = p.isDrafted) := by
  have hne : ¬ current.length = 0 := by
    intro h0
    rw [List.length_eq_zero] at h0
    subst h0
    simp at hp
  have hlook : mapLookup new p.id = some np := by
    rw [← hid]
    exact mapLookup_eq_some_of_nodup new hnn np hnp
  have hperm := merge_core_perm current new hne
  have hup : mergeUpdate new p =
      { p with name := np.name, team := np.team, position := np.position } := by
    unfold mergeUpdate
    rw [hlook]
  have humem : mergeUpdate new p ∈ mergeCombined current new := by
    apply List.mem_append_left
    apply List.mem_filter.mpr
    refine ⟨List.mem_map_of_mem _ hp, ?_⟩
    unfold hasNew
    rw [mergeUpdate_id, hlook]
    rfl
  have huniq : ∀ c ∈ mergeCombined current new, c.id = p.id → c = mergeUpdate new p := by
    intro c hc hcid
    rcases List.mem_append.mp hc with hc | hc
    · rcases List.mem_filter.mp hc with ⟨hcm, _⟩
      rcases List.mem_map.mp hcm with ⟨q, hq, rfl⟩
      have hqid : q.id = p.id := by rw [← mergeUpdate_id new q]; exact hcid
      have hqp : q = p := List.inj_on_of_nodup_map hcn hq hp hqid
      rw [hqp]
    · exfalso
      rcases List.mem_filter.mp hc with ⟨_, hpred⟩
      unfold notInRoster at hpred
      have hany : current.any (fun q => q.id == c.id) = true :=
        List.any_eq_true.mpr ⟨p, hp, by simp [hcid]⟩
      simp [hany] at hpred
  constructor
  · have hcoremem : coreOf (mergeUpdate new p) ∈ (mergeCatalogRefresh current new).map coreOf :=
      hperm.mem_iff.mpr (List.mem_map_of_mem _ humem)
    rcases List.mem_map.mp hcoremem with ⟨p', hp', hcore⟩
    refine ⟨p', hp', ?_⟩
    have : p'.id = (mergeUpdate new p).id := by
      simpa [coreOf] using congrArg (fun c => c.1) hcore
    rw [this, mergeUpdate_id]
  · intro p' hp' hpid
    have hcoremem : coreOf p' ∈ (mergeCombined current new).map coreOf :=
      hperm.mem_iff.mp (List.mem_map_of_mem _ hp')
    rcases List.mem_map.mp hcoremem with ⟨c, hc, hcore⟩
    simp only [coreOf, Prod.mk.injEq] at hcore
    rcases hcore with ⟨hcid, hcname, hcteam, hcpos, hcdraft, hctags⟩
    have hcu : c = mergeUpdate new p := huniq c hc (by rw [hcid, hpid])
    rw [hup] at hcu
    rw [hcu] at hcname hcteam hcpos hcdraft hctags
    exact ⟨by rw [← hcname], by rw [← hcteam], by rw [← hcpos],
      by rw [← hctags], by rw [← hcdraft]⟩

/-- Witness for C2: merging a one-player roster (drafted, tagged) with a
catalog that renames the player and adds a new one. -/
theorem c2_witness :
    (∃ p' ∈ mergeCatalogRefresh [pFixXold] [pFixXnew, pFixY], p'.id = pFixXold.id) ∧
    (∀ p' ∈ mergeCatalogRefresh [pFixXold] [pFixXnew, pFixY], p'.id = pFixXold.id →
      p'.name = pFixXnew.name ∧ p'.team = pFixXnew.team ∧
      p'.position = pFixXnew.position ∧
      p'.tags = pFixXold.tags ∧ p'.isDrafted = pFixXold.isDrafted) :=
  c2_merge_preserves_user_fields [pFixXold] [pFixXnew, pFixY] pFixXold pFixXnew
    (by decide) (by decide) (by decide) (by decide) (by decide)

/-! ### Reorder refinement -/

/-- C5: on rosters with unique ids, `handleDrop` coincides with the spec's
reference `computeReorder` (no-op on equal ids, drafted endpoints, or ids
absent from the eligible set; otherwise remove-and-reinsert at the
target's slot within the eligible partition with dense re-ranking), and the
concrete scenario drag C onto A over `[A rank1, B rank2, C rank3]` yields
`[C rank1, A rank2, B rank3]`. -/
theorem c5_reorder_matches_spec (roster : List Player) (d t : Int)
    (h : (roster.map (fun p => p.id)).Nodup) :
    handleDrop roster d t = computeReorderSpec roster d t ∧
    handleDrop [pFixA, pFixB, pFixC] 3 1 =
      [{ pFixC with rank := 1 }, { pFixA with rank := 2 }, { pFixB with rank := 3 }] := by
  refine ⟨?_, by decide⟩
  have helig_nodup : ((roster.filter (fun p => !p.isDrafted)).map (fun p => p.id)).Nodup :=
    ((List.filter_sublist roster).map _).nodup h
  have hignore : ∀ (i : Int), roster.find? (fun p => p.id == i) = none →
      (roster.filter (fun p => !p.isDrafted)).find? (fun p => p.id == i) = none := by
    intro i hi
    rw [List.find?_eq_none] at hi ⊢
    intro x hx
    exact hi x (List.mem_of_mem_filter hx)
  have hsome : ∀ (i : Int) (q : Player), roster.find? (fun p => p.id == i) = some q →
      q.isDrafted = false →
      (roster.filter (fun p => !p.isDrafted)).find? (fun p => p.id == i) = some q := by
    intro i q hq hqd
    apply find?_eq_some_of_nodup _ helig_nodup
    · exact List.mem_filter.mpr ⟨List.mem_of_find?_eq_some hq, by simp [hqd]⟩
    · simpa using List.find?_some hq
  have hdrafted : ∀ (i : Int) (q : Player), roster.find? (fun p => p.id == i) = some q →
      q.isDrafted = true →
      (roster.filter (fun p => !p.isDrafted)).find? (fun p => p.id == i) = none := by
    intro i q hq hqd
    rw [List.find?_eq_none]
    intro x hx hxi
    have hxr : x ∈ roster := List.mem_of_mem_filter hx
    have hxu : ¬ x.isDrafted = true := by simpa using (List.mem_filter.mp hx).2
    have hqr : q ∈ roster := List.mem_of_find?_eq_some hq
    have hqi : q.id = i := by simpa using List.find?_some hq
    have hxid : x.id = q.id := by
      have hxi' : x.id = i := by simpa using hxi
      rw [hxi', hqi]
    have hxq : x = q := List.inj_on_of_nodup_map h hxr hqr hxid
    rw [hxq] at hxu
    exact hxu hqd
  by_cases hdt : d = t
  · unfold handleDrop computeReorderSpec
    rw [if_pos hdt]
    simp only []
    split
    · rw [if_pos hdt]
    · rfl
  · rcases hfd : roster.find? (fun p => p.id == d) with _ | dp <;>
      rcases hft : roster.find? (fun p => p.id == t) with _ | tp
    · unfold handleDrop computeReorderSpec
      rw [if_neg hdt]
      simp only []
      rw [hfd, hft, hignore d hfd, hignore t hft]
    · unfold handleDrop computeReorderSpec
      rw [if_neg hdt]
      simp only []
      rw [hfd, hft, hignore d hfd]
    · unfold handleDrop computeReorderSpec
      rw [if_neg hdt]
      simp only []
      rw [hfd, hft, hignore t hft]
      rcases hdp : dp.isDrafted with _ | _
      · rw [hsome d dp hfd hdp]
      · rw [hdrafted d dp hfd hdp]
    · by_cases hdp : dp.isDrafted
      · unfold handleDrop computeReorderSpec
        rw [if_neg hdt]
        simp only []
        rw [hfd, hft, hdrafted d dp hfd hdp]
        simp [hdp]
      · have hdp' : dp.isDrafted = false := by simpa using hdp
        by_cases htp : tp.isDrafted
        · unfold handleDrop computeReorderSpec
          rw [if_neg hdt]
          simp only []
          rw [hfd, hft, hsome d dp hfd hdp', hdrafted t tp hft htp]
          simp [hdp', htp]
        · have htp' : tp.isDrafted = false := by simpa using htp
          unfold handleDrop computeReorderSpec
          rw [if_neg hdt]
          simp only []
          rw [hfd, hft, hsome d dp hfd hdp', hsome t tp hft htp']
          simp [hdp', htp', hdt]

/-- Witness for C5 on a concrete three-player roster with unique ids. -/
theorem c5_witness :
    handleDrop [pFixA, pFixB, pFixC] 3 1 = computeReorderSpec [pFixA, pFixB, pFixC] 3 1 ∧
    handleDrop [pFixA, pFixB, pFixC] 3 1 =
      [{ pFixC with rank := 1 }, { pFixA with rank := 2 }, { pFixB with rank := 3 }] :=
  c5_reorder_matches_spec [pFixA, pFixB, pFixC] 3 1 (by decide)

/-! ### Catalog-merge ordering of brand-new players -/

/-- C7 counterexample: merging the one-player roster `[X(drafted)]` with the
catalog `[X', Y]` (`X'` the surviving player id 10, `Y` brand-new id 11)
yields the merged id order `[11, 10]` — the brand-new player is ranked
before the retained player, so new players are not ranked after all
retained players. -/
theorem c7_counterexample :
    pFixXnew.id = pFixXold.id ∧ notInRoster [pFixXold] pFixY = true ∧
    (mergeCatalogRefresh [pFixXold] [pFixXnew, pFixY]).map (fun p => p.id) = [11, 10] ∧
    ¬ newPlayersLast [pFixXold] [pFixXnew, pFixY] := by decide

theorem pairwise_rankLe_sortBy (l : List Player) :
    List.Pairwise (fun a b => a.rank ≤ b.rank) (sortBy rankLe l) :=
  pairwise_sortBy_of rankLe _ l
    (fun a _ b _ hab => by simpa [rankLe] using hab)
    (fun a _ b _ hab => by
      have hnab : ¬ a.rank ≤ b.rank := by simpa [rankLe] using hab
      omega)
    (fun a _ b _ c _ h1 h2 => le_trans h1 h2)

/-- C7 amended: players of the new catalog absent from the old roster all
appear in the merged roster, in the catalog's own order relative to one
another (their merged id sequence equals their catalog id sequence) — but,
as the counterexample shows, they are interleaved with the retained players
by rank rather than ranked after all of them.  The hypotheses hold for
every catalog produced by the normalizer: strictly increasing ranks and all
players undrafted. -/
theorem c7_new_players_in_catalog_order (current new : List Player)
    (hranks : List.Pairwise (fun a b => a.rank < b.rank) new)
    (hund : ∀ p ∈ new, p.isDrafted = false) :
    ((mergeCatalogRefresh current new).filter (notInRoster current)).map (fun p => p.id)
      = (new.filter (notInRoster current)).map (fun p => p.id) := by
  have hq_updated : ∀ p ∈ (current.map (mergeUpdate new)).filter (hasNew new),
      notInRoster current p = false := by
    intro p hp
    rcases List.mem_map.mp (List.mem_of_mem_filter hp) with ⟨u, hu, rfl⟩
    unfold notInRoster
    have hany : current.any (fun q => q.id == (mergeUpdate new u).id) = true :=
      List.any_eq_true.mpr ⟨u, hu, by simp [mergeUpdate_id]⟩
    simp [hany]
  have hBq : (new.filter (notInRoster current)).filter (notInRoster current)
      = new.filter (notInRoster current) := by
    rw [List.filter_eq_self]
    intro p hp
    exact (List.mem_filter.mp hp).2
  have hBu : (new.filter (notInRoster current)).filter (fun p => !p.isDrafted)
      = new.filter (notInRoster current) := by
    rw [List.filter_eq_self]
    intro p hp
    simp [hund p (List.mem_of_mem_filter hp)]
  have hCsplit : ((mergeCombined current new).filter (fun p => !p.isDrafted)).filter
      (notInRoster current) = new.filter (notInRoster current) := by
    unfold mergeCombined
    rw [List.filter_append, List.filter_append, hBu, hBq]
    have hU : (((current.map (mergeUpdate new)).filter (hasNew new)).filter
        (fun p => !p.isDrafted)).filter (notInRoster current) = [] := by
      rw [List.filter_eq_nil_iff]
      intro p hp
      simp [hq_updated p (List.mem_of_mem_filter hp)]
    rw [hU, List.nil_append]
  by_cases hemp : current.length = 0
  · unfold mergeCatalogRefresh
    rw [if_pos hemp]
  · unfold mergeCatalogRefresh
    rw [if_neg hemp]
    simp only []
    rw [List.filter_append, List.map_append]
    have hD : ((mergeCombined current new).filter (fun p => p.isDrafted)).filter
        (notInRoster current) = [] := by
      rw [List.filter_eq_nil_iff]
      intro p hp
      have hpC : p ∈ mergeCombined current new := List.mem_of_mem_filter hp
      have hpd : p.isDrafted = true := by simpa using (List.mem_filter.mp hp).2
      unfold mergeCombined at hpC
      rcases List.mem_append.mp hpC with hp1 | hp1
      · simp [hq_updated p hp1]
      · exfalso
        have hu := hund p (List.mem_of_mem_filter hp1)
        rw [hu] at hpd
        exact Bool.false_ne_true hpd
    rw [hD, List.map_nil, List.append_nil]
    rw [reRank_filter_map (notInRoster current) (fun p => p.id) (fun p n => rfl)
      (fun p n => rfl)]
    set S := (sortBy rankLe
      ((mergeCombined current new).filter (fun p => !p.isDrafted))).filter
      (notInRoster current) with hSdef
    have hperm : S.Perm (new.filter (notInRoster current)) := by
      have h1 := (sortBy_perm rankLe
        ((mergeCombined current new).filter (fun p => !p.isDrafted))).filter
        (notInRoster current)
      rw [hCsplit] at h1
      exact h1
    have hsle : List.Pairwise (fun a b => a.rank ≤ b.rank) S :=
      (pairwise_rankLe_sortBy _).filter _
    have hBlt : List.Pairwise (fun a b => a.rank < b.rank)
        (new.filter (notInRoster current)) :=
      List.Pairwise.sublist (List.filter_sublist new) hranks
    have hnodupB : ((new.filter (notInRoster current)).map (fun p => p.rank)).Nodup :=
      List.pairwise_map.mpr (hBlt.imp (fun hab => Nat.ne_of_lt hab))
    have hnodupS : (S.map (fun p => p.rank)).Nodup :=
      (hperm.map (fun p => p.rank)).nodup_iff.mpr hnodupB
    have hneS : List.Pairwise (fun a b : Player => a.rank ≠ b.rank) S :=
      List.pairwise_map.mp hnodupS
    have hslt : List.Pairwise (fun a b : Player => a.rank < b.rank) S :=
      (hsle.and hneS).imp (fun hab => lt_of_le_of_ne hab.1 hab.2)
    haveI : IsAntisymm Player (fun a b => a.rank < b.rank) :=
      ⟨fun a b h1 h2 => absurd h2 (Nat.lt_asymm h1)⟩
    have heq : S = new.filter (notInRoster current) :=
      List.eq_of_perm_of_sorted hperm hslt hBlt
    rw [heq]

/-- Witness for C7 (amended) on the concrete one-player roster and
two-player catalog. -/
theorem c7_witness :
    ((mergeCatalogRefresh [pFixXold] [pFixXnew, pFixY]).filter
        (notInRoster [pFixXold])).map (fun p => p.id)
      = (([pFixXnew, pFixY]).filter (notInRoster [pFixXold])).map (fun p => p.id) :=
  c7_new_players_in_catalog_order [pFixXold] [pFixXnew, pFixY]
    (by decide) (by decide)

/-! ### Normalizer ordering -/

/-- C8 counterexample: a record with a *missing* (`undefined`) score is not
placed after scored records — the comparator falls through to a `NaN`
subtraction which ECMAScript maps to `+0`, so the missing-score record
compares equal to everything and stays first: normalizing
`[missing, score 5]` yields the missing-score record at rank 1. -/
theorem c8_counterexample :
    (rawFix 99 SRank.missing).search_rank = SRank.missing ∧
    (rawFix 5 (SRank.num 5)).search_rank = SRank.num 5 ∧
    (normalizeSleeperData [rawFix 99 SRank.missing, rawFix 5 (SRank.num 5)]).map
        (fun p => (p.id, p.rank)) = [(99, 1), (5, 2)] := by decide

/-- C8 amended: when every record's score is present (a number or an
explicit null), the normalizer orders scored records ascending with all
null-score records after every scored record, and assigns `rank` as the
1-based position in this order; in particular scores `[null, 5, 2]`
normalize to the order `[2, 5, null]` with ranks 1, 2, 3.  (Records with a
missing score are not sorted last — see the counterexample — and no order
is guaranteed among several null-score records: the comparator is
inconsistent on null/null pairs.) -/
theorem c8_normalize_order_amended (data : List RawRecord)
    (h : ∀ p ∈ data, p.search_rank ≠ SRank.missing) :
    List.Pairwise srOrd (sortedCatalog data) ∧
    (normalizeSleeperData data).map (fun p => p.rank)
      = List.range' 1 (sortedCatalog data).length ∧
    (normalizeSleeperData
        [rawFix 0 SRank.snull, rawFix 5 (SRank.num 5), rawFix 2 (SRank.num 2)]).map
        (fun p => (p.id, p.rank)) = [(2, 1), (5, 2), (0, 3)] := by
  refine ⟨?_, ?_, by decide⟩
  · unfold sortedCatalog
    apply pairwise_sortBy_of rawLe srOrd (data.filter rawKeep)
    · intro a ha b hb hab
      have hna := h a (List.mem_of_mem_filter ha)
      have hnb := h b (List.mem_of_mem_filter hb)
      unfold srOrd
      rcases hsa : a.search_rank with _ | _ | x
      · exact absurd hsa hna
      · rcases hsb : b.search_rank with _ | _ | y <;>
          (rw [rawLe, hsa, hsb] at hab; simp [searchRankCompare] at hab)
      · rcases hsb : b.search_rank with _ | _ | y
        · exact absurd hsb hnb
        · exact Or.inl rfl
        · rw [rawLe, hsa, hsb] at hab
          simp [searchRankCompare] at hab
          exact Or.inr ⟨x, y, rfl, rfl, by omega⟩
    · intro a ha b hb hab
      have hna := h a (List.mem_of_mem_filter ha)
      have hnb := h b (List.mem_of_mem_filter hb)
      unfold srOrd
      rcases hsa : a.search_rank with _ | _ | x
      · exact absurd hsa hna
      · exact Or.inl rfl
      · rcases hsb : b.search_rank with _ | _ | y
        · exact absurd hsb hnb
        · rw [rawLe, hsa, hsb] at hab
          simp [searchRankCompare] at hab
        · rw [rawLe, hsa, hsb] at hab
          simp [searchRankCompare] at hab
          exact Or.inr ⟨y, x, rfl, rfl, by omega⟩
    · intro a _ b _ c _ h1 h2
      unfold srOrd at h1 h2 ⊢
      rcases h2 with hc | ⟨y, z, hby, hcz, hyz⟩
      · exact Or.inl hc
      · rcases h1 with hb | ⟨x, y', hax, hby', hxy⟩
        · rw [hb] at hby
          cases hby
        · refine Or.inr ⟨x, z, hax, hcz, ?_⟩
          have hyy : y' = y := by
            rw [hby'] at hby
            injection hby
          omega
  · unfold normalizeSleeperData sortedCatalog
    rw [toPlayers_map_rank]

/-- Witness for C8 (amended) on the three-record `[null, 5, 2]` catalog. -/
theorem c8_witness :
    (∀ p ∈ [rawFix 0 SRank.snull, rawFix 5 (SRank.num 5), rawFix 2 (SRank.num 2)],
      p.search_rank ≠ SRank.missing) ∧
    List.Pairwise srOrd (sortedCatalog
      [rawFix 0 SRank.snull, rawFix 5 (SRank.num 5), rawFix 2 (SRank.num 2)]) :=
  ⟨by decide, (c8_normalize_order_amended _ (by decide)).1⟩
